import Mathlib

/-!
Verification of `minos/tools/pygame_client.py`.

This file gives a shallow embedding of the pure computational core of the
pygame client: the nine-region spatial partition (`calculate_nine_region_bounds`,
`is_within_region`, `get_region`), the random-walk confinement state machine
(`reverse_action`, `get_random_action`, `generate_key_press_random`), the
depth-image normalization and BGRA→RGBA channel handling of the render path,
the `positions.csv` update/append logic of the C-key handler, and the
try/except/cleanup control flow of `main`.  Python floats are modelled by
exact rationals, numpy uint8 casts by truncation followed by reduction
mod 256, the mutable module globals by an explicit state record, and a
Python call that raises by an `Option`-valued result.
-/

/-- Agent positions: the Python 3-element lists `[x, y, z]` of floats,
modelled with exact rationals. -/
structure Vec3 where
  x : ℚ
  y : ℚ
  z : ℚ
deriving DecidableEq

/-- The region-bounds dictionaries built by `calculate_nine_region_bounds`
(and the `room_bounds` dictionary of the interactive loop), with keys
`start_x` … `end_z`. -/
structure RegionBounds where
  start_x : ℚ
  start_y : ℚ
  start_z : ℚ
  end_x : ℚ
  end_y : ℚ
  end_z : ℚ
deriving DecidableEq

/-- The 3×3 nested list `bounds` returned by `calculate_nine_region_bounds`:
`rIJ` is `bounds[I][J]` (row `I`, column `J`). -/
structure NineRegions where
  r00 : RegionBounds
  r01 : RegionBounds
  r02 : RegionBounds
  r10 : RegionBounds
  r11 : RegionBounds
  r12 : RegionBounds
  r20 : RegionBounds
  r21 : RegionBounds
  r22 : RegionBounds
deriving DecidableEq

/-- `calculate_nine_region_bounds` (pygame_client.py lines 194-306).
Each entry is transcribed from the corresponding dict literal; the
conditional expressions `(start+diff) if end>start else (start-diff)`
become `if e > s then s + diff else s - diff`. -/
def calculate_nine_region_bounds (start_position end_position : Vec3) : NineRegions :=
  let x_distance := end_position.x - start_position.x
  let x_distance_diff := x_distance / 3
  let z_distance := end_position.z - start_position.z
  let z_distance_diff := z_distance / 3
  { r00 :=
      { start_x := start_position.x
        start_y := start_position.y
        start_z := start_position.z
        end_x := if end_position.x > start_position.x then start_position.x + x_distance_diff
          else start_position.x - x_distance_diff
        end_y := start_position.y
        end_z := if end_position.z > start_position.z then start_position.z + z_distance_diff
          else start_position.z - z_distance_diff }
    r01 :=
      { start_x := if end_position.x > start_position.x then start_position.x + x_distance_diff
          else start_position.x - x_distance_diff
        start_y := start_position.y
        start_z := start_position.z
        end_x := if end_position.x > start_position.x then start_position.x + 2 * x_distance_diff
          else start_position.x - 2 * x_distance_diff
        end_y := start_position.y
        end_z := if end_position.z > start_position.z then start_position.z + z_distance_diff
          else start_position.z - z_distance_diff }
    r02 :=
      { start_x := if end_position.x > start_position.x then start_position.x + 2 * x_distance_diff
          else start_position.x - 2 * x_distance_diff
        start_y := start_position.y
        start_z := start_position.z
        end_x := end_position.x
        end_y := start_position.y
        end_z := if end_position.z > start_position.z then start_position.z + z_distance_diff
          else start_position.z - z_distance_diff }
    r10 :=
      { start_x := start_position.x
        start_y := start_position.y
        start_z := if end_position.z > start_position.z then start_position.z + z_distance_diff
          else start_position.z - z_distance_diff
        end_x := if end_position.x > start_position.x then start_position.x + x_distance_diff
          else start_position.x - x_distance_diff
        end_y := start_position.y
        end_z := if end_position.z > start_position.z then start_position.z + 2 * z_distance_diff
          else start_position.z - 2 * z_distance_diff }
    r11 :=
      { start_x := if end_position.x > start_position.x then start_position.x + x_distance_diff
          else start_position.x - x_distance_diff
        start_y := start_position.y
        start_z := if end_position.z > start_position.z then start_position.z + z_distance_diff
          else start_position.z - z_distance_diff
        end_x := if end_position.x > start_position.x then start_position.x + 2 * x_distance_diff
          else start_position.x - 2 * x_distance_diff
        end_y := start_position.y
        end_z := if end_position.z > start_position.z then start_position.z + 2 * z_distance_diff
          else start_position.z - 2 * z_distance_diff }
    r12 :=
      { start_x := if end_position.x > start_position.x then start_position.x + 2 * x_distance_diff
          else start_position.x - 2 * x_distance_diff
        start_y := start_position.y
        start_z := if end_position.z > start_position.z then start_position.z + z_distance_diff
          else start_position.z - z_distance_diff
        end_x := end_position.x
        end_y := start_position.y
        end_z := if end_position.z > start_position.z then start_position.z + 2 * z_distance_diff
          else start_position.z - 2 * z_distance_diff }
    r20 :=
      { start_x := start_position.x
        start_y := start_position.y
        start_z := if end_position.z > start_position.z then start_position.z + 2 * z_distance_diff
          else start_position.z - 2 * z_distance_diff
        end_x := if end_position.x > start_position.x then start_position.x + x_distance_diff
          else start_position.x - x_distance_diff
        end_y := start_position.y
        end_z := end_position.z }
    r21 :=
      { start_x := if end_position.x > start_position.x then start_position.x + x_distance_diff
          else start_position.x - x_distance_diff
        start_y := start_position.y
        start_z := if end_position.z > start_position.z then start_position.z + 2 * z_distance_diff
          else start_position.z - 2 * z_distance_diff
        end_x := if end_position.x > start_position.x then start_position.x + 2 * x_distance_diff
          else start_position.x - 2 * x_distance_diff
        end_y := start_position.y
        end_z := end_position.z }
    r22 :=
      { start_x := if end_position.x > start_position.x then start_position.x + 2 * x_distance_diff
          else start_position.x - 2 * x_distance_diff
        start_y := start_position.y
        start_z := if end_position.z > start_position.z then start_position.z + 2 * z_distance_diff
          else start_position.z - 2 * z_distance_diff
        end_x := end_position.x
        end_y := start_position.y
        end_z := end_position.z } }

/-- `is_within_region` (lines 308-312): the x and z coordinates must lie
between the min and max of the region's start/end bounds. -/
def is_within_region (position : Vec3) (region_bounds : RegionBounds) : Bool :=
  decide (position.x ≥ min region_bounds.start_x region_bounds.end_x) &&
  decide (position.z ≥ min region_bounds.start_z region_bounds.end_z) &&
  decide (position.x ≤ max region_bounds.start_x region_bounds.end_x) &&
  decide (position.z ≤ max region_bounds.start_z region_bounds.end_z)

/-- `get_region` (lines 314-332): first matching region in row-major order,
numbered 1-9; Python falls off the end returning `None` when no region
matches. -/
def get_region (position : Vec3) (bounds : NineRegions) : Option ℕ :=
  if is_within_region position bounds.r00 then some 1
  else if is_within_region position bounds.r01 then some 2
  else if is_within_region position bounds.r02 then some 3
  else if is_within_region position bounds.r10 then some 4
  else if is_within_region position bounds.r11 then some 5
  else if is_within_region position bounds.r12 then some 6
  else if is_within_region position bounds.r20 then some 7
  else if is_within_region position bounds.r21 then some 8
  else if is_within_region position bounds.r22 then some 9
  else none

/-- The nine regions of a `NineRegions` value as a flat list (row-major),
matching the order in which `get_region` tests them. -/
def nine_region_list (b : NineRegions) : List RegionBounds :=
  [b.r00, b.r01, b.r02, b.r10, b.r11, b.r12, b.r20, b.r21, b.r22]

/-- The action key-code list `actions = [119, 115, 97, 100, 276, 275]` of
`get_random_action` (lines 334-354): forward, backward, left, right,
CCW, CW. -/
def actions : List ℤ := [119, 115, 97, 100, 276, 275]

/-- `get_random_action` (lines 334-354).  The random draw
`random.randint(0, 5)` (resp. `(0, 3)`) is modelled by the parameter
`rand_no`; the `try/except IndexError` fallback returns `actions[5]`
(resp. `actions[3]`) when the index is out of range. -/
def get_random_action (rotation : Bool) (rand_no : ℕ) : ℤ :=
  match actions[rand_no]? with
  | some a => a
  | none => if rotation then 275 else 100

/-- `reverse_action` (lines 361-374): maps each of the six action codes to
the opposite motion and returns `None` on anything else. -/
def reverse_action (previous_action : ℤ) : Option ℤ :=
  if previous_action = 119 then some 115
  else if previous_action = 115 then some 119
  else if previous_action = 97 then some 100
  else if previous_action = 100 then some 97
  else if previous_action = 276 then some 275
  else if previous_action = 275 then some 276
  else none

/-- The module-level globals of the random-walk routine (lines 356-359):
`previous_action`, `next_action`, `rotation_counter`,
`reverse_action_taken`. -/
structure GKState where
  previous_action : ℤ
  next_action : ℤ
  rotation_counter : ℕ
  reverse_action_taken : Bool
deriving DecidableEq

/-- The branch cascade of `generate_key_press_random` (lines 380-413):
computes the chosen action (`None` when `reverse_action` fails), the
rotation counter after the in-branch reset, and the new
`reverse_action_taken` flag.  `previous_action` is the just-assigned global
`previous_action = next_action` (line 379); the truthiness test
`room_bounds and current_position != [0,0,0] and not is_within_region(...)`
becomes a Boolean over the `Option`-valued `room_bounds`. -/
def gkp_choose (st : GKState) (has_collided rotation : Bool)
    (confine_to_room current_room : String) (room_bounds : Option RegionBounds)
    (current_position : Vec3) (rand_no : ℕ) : Option ℤ × ℕ × Bool :=
  let previous_action := st.next_action
  let outside_bounds : Bool :=
    match room_bounds with
    | some rb => decide (current_position ≠ ⟨0, 0, 0⟩) && !(is_within_region current_position rb)
    | none => false
  if confine_to_room ≠ "" ∧ current_room ≠ confine_to_room then
    if st.reverse_action_taken = false then (reverse_action previous_action, st.rotation_counter, true)
    else (some previous_action, st.rotation_counter, true)
  else if outside_bounds then
    if st.reverse_action_taken = false then (reverse_action previous_action, st.rotation_counter, true)
    else (some previous_action, st.rotation_counter, true)
  else if has_collided then
    (some (get_random_action rotation rand_no), st.rotation_counter, false)
  else if previous_action = 0 then
    (some 119, st.rotation_counter, false)
  else if (previous_action = 276 ∧ st.rotation_counter % 2 = 0) ∨
      (previous_action = 275 ∧ st.rotation_counter % 2 = 0) then
    (some (get_random_action rotation rand_no), 0, false)
  else
    (some previous_action, st.rotation_counter, false)

/-- The one-hot key tuple `empty_keys` (lines 417-418): 323 zeros with a 1
written at index `i`. -/
def empty_keys_one (i : ℕ) : List ℤ :=
  (List.range 323).map fun j => if j = i then 1 else 0

/-- `generate_key_press_random` (lines 376-419).  The final steps of the
source: increment `rotation_counter` when the chosen action is 275 or 276,
then `empty_keys[next_action] = 1`.  A `None` chosen action makes the
indexing raise `TypeError`, and an index outside `[-323, 323)` raises
`IndexError`; both are modelled by returning `none`.  A negative index
wraps around, as in Python.  On success the result carries the updated
globals and the key tuple. -/
def generate_key_press_random (st : GKState) (has_collided rotation : Bool)
    (confine_to_room current_room : String) (room_bounds : Option RegionBounds)
    (current_position : Vec3) (rand_no : ℕ) : Option (GKState × List ℤ) :=
  let previous_action := st.next_action
  match gkp_choose st has_collided rotation confine_to_room current_room room_bounds
      current_position rand_no with
  | (none, _, _) => none
  | (some a, rc, tkn) =>
    let rc2 := if a = 275 ∨ a = 276 then rc + 1 else rc
    let idx : ℤ := if a < 0 then a + 323 else a
    if _h : 0 ≤ idx ∧ idx < 323 then
      some ({ previous_action := previous_action, next_action := a,
              rotation_counter := rc2, reverse_action_taken := tkn }, empty_keys_one idx.toNat)
    else none

/-- `img.max()` over a (flattened) depth image: the numpy maximum of a
nonempty array, folded exactly as a running maximum. -/
def img_max (img : List ℚ) : ℚ :=
  match img with
  | [] => 0
  | x :: xs => xs.foldl max x

/-- The numpy cast `astype(np.uint8)` on an exact rational: C truncation
toward zero (`Int.tdiv` of numerator by denominator), then reduction modulo
256, as numpy does for out-of-range values. -/
def uint8_cast (q : ℚ) : ℕ := (Int.emod (Int.tdiv q.num q.den) 256).toNat

/-- The depth branch of `display_response` (lines 141-143):
`img *= (255.0 / img.max())` followed by `img = img.astype(np.uint8)`. -/
def depth_viz (img : List ℚ) : List ℕ :=
  (img.map fun p => p * (255 / img_max img)).map uint8_cast

/-- A 2-dimensional numpy image (grayscale): value at row i, column j. -/
def Mat2 : Type := ℕ → ℕ → ℕ

/-- An (H, W, 4) numpy image: value at row i, column j, channel c. -/
def Mat4 : Type := ℕ → ℕ → Fin 4 → ℕ

/-- `np.dstack([c0, c1, c2, c3])`: stack four 2-d arrays along a new last
axis. -/
def np_dstack4 (c0 c1 c2 c3 : Mat2) : Mat4 := fun i j => ![c0 i j, c1 i j, c2 i j, c3 i j]

/-- `np.ones(img.shape, dtype=np.uint8)`. -/
def np_ones : Mat2 := fun _ _ => 1

/-- Pointwise scalar multiplication of a 2-d array. -/
def np_scale (m : Mat2) (k : ℕ) : Mat2 := fun i j => m i j * k

/-- Fancy channel indexing `img[:, :, sel]` on the last axis. -/
def np_channel_index (img : Mat4) (sel : Fin 4 → Fin 4) : Mat4 := fun i j c => img i j (sel c)

/-- An image as passed to `blit_img_to_surf`: 2-dimensional grayscale or
(H, W, 4) channel data. -/
inductive NpImg where
  | gray (data : Mat2)
  | bgra (data : Mat4)

/-- The image conversion at the top of `blit_img_to_surf` (lines 47-52):
a 2-dimensional image is expanded `y -> yyy1` by
`np.dstack([img, img, img, np.ones(img.shape, dtype=np.uint8)*255])`,
otherwise the channels are permuted `img[:, :, [2, 1, 0, 3]]`
(BGRA → RGBA). -/
def blit_convert (img : NpImg) : Mat4 :=
  match img with
  | .gray g => np_dstack4 g g g (np_scale np_ones 255)
  | .bgra f => np_channel_index f ![2, 1, 0, 3]

/-- A row of `positions.csv` with the columns used by the interactive loop
(lines 536-649); a missing cell (pandas NaN, e.g. in columns absent from an
appended frame) is `none`. -/
structure PosRow where
  scene_id : String
  room_id : String
  start_position_0 : Option ℚ
  start_position_1 : Option ℚ
  start_position_2 : Option ℚ
  start_angle : Option ℚ
  end_position_0 : Option ℚ
  end_position_1 : Option ℚ
  end_position_2 : Option ℚ
  end_angle : Option ℚ
deriving DecidableEq

/-- The pandas row mask `(df['scene_id']==scene) & (df['room_id']==room)`
used by the X/C key handlers. -/
def row_matches (scene room : String) (r : PosRow) : Bool :=
  decide (r.scene_id = scene) && decide (r.room_id = room)

/-- The C-key handler when `positions.csv` exists (lines 615-637): when the
mask selects at least one row (`not df.loc[mask].empty`), the `end_*` cells
of every selected row are overwritten with the current position and angle;
otherwise the `position_data` dict of lines 627-634 — whose keys are
`start_position_0..2` and `start_angle` — is appended as a new row, the
absent `end_*` columns filling with NaN. -/
def handle_key_c (df : List PosRow) (scene room : String) (pos : Vec3) (angle : ℚ) :
    List PosRow :=
  if (df.filter (row_matches scene room)).isEmpty = false then
    df.map fun r =>
      if row_matches scene room r then
        { r with end_position_0 := some pos.x, end_position_1 := some pos.y,
                 end_position_2 := some pos.z, end_angle := some angle }
      else r
  else
    df ++ [{ scene_id := scene, room_id := room,
             start_position_0 := some pos.x, start_position_1 := some pos.y,
             start_position_2 := some pos.z, start_angle := some angle,
             end_position_0 := none, end_position_1 := none,
             end_position_2 := none, end_angle := none }]

/-- A concrete pre-existing `positions.csv` row for a different room, used
as the failing input of claim C6. -/
def c6_row0 : PosRow :=
  { scene_id := "scene0", room_id := "roomA",
    start_position_0 := some 0, start_position_1 := some 0, start_position_2 := some 0,
    start_angle := some 0, end_position_0 := some 0, end_position_1 := some 0,
    end_position_2 := some 0, end_angle := some 0 }

/-- Events of the tail of `main` (lines 823-856), in execution order. -/
inductive MainEvent where
  | simStart
  | runLoop
  | logTraceback
  | simKill
  | videoClose
deriving DecidableEq

/-- The `try` block of `main` (lines 839-846): `sim.start()`, then — when
`ep_info` is truthy — the interactive loop.  Returns the event trace of the
block together with whether an exception escaped it. -/
def main_try_block (start_raises ep_info_truthy loop_raises : Bool) :
    List MainEvent × Bool :=
  if start_raises then ([.simStart], true)
  else if ep_info_truthy then ([.simStart, .runLoop], loop_raises)
  else ([.simStart], false)

/-- The tail of `main` (lines 839-856): the bare `except` clause logs a
traceback on any exception escaping the `try` block, then `sim.kill()`
runs unconditionally (`sim` is never `None` there), and
`VIDEO_WRITER.close()` runs when a video writer was created
(lines 823-826). -/
def main_session (start_raises ep_info_truthy loop_raises video_writer_created : Bool) :
    List MainEvent :=
  (main_try_block start_raises ep_info_truthy loop_raises).1 ++
    (if (main_try_block start_raises ep_info_truthy loop_raises).2 then [.logTraceback]
      else []) ++
    [.simKill] ++ (if video_writer_created then [.videoClose] else [])

theorem within_iff (p : Vec3) (r : RegionBounds) :
    is_within_region p r = true ↔
      (min r.start_x r.end_x ≤ p.x ∧ p.x ≤ max r.start_x r.end_x) ∧
        (min r.start_z r.end_z ≤ p.z ∧ p.z ≤ max r.start_z r.end_z) := by
  unfold is_within_region
  simp only [Bool.and_eq_true, decide_eq_true_eq, ge_iff_le]
  tauto

/-- One-axis coverage: a coordinate between `min s e` and `max s e` lies in
one of the three column (resp. row) intervals produced by
`calculate_nine_region_bounds`, whichever way round `s` and `e` are. -/
theorem axis_cover (s e p b1 b2 : ℚ)
    (hb1 : b1 = if e > s then s + (e - s) / 3 else s - (e - s) / 3)
    (hb2 : b2 = if e > s then s + 2 * ((e - s) / 3) else s - 2 * ((e - s) / 3))
    (h1 : min s e ≤ p) (h2 : p ≤ max s e) :
    (min s b1 ≤ p ∧ p ≤ max s b1) ∨ (min b1 b2 ≤ p ∧ p ≤ max b1 b2) ∨
      (min b2 e ≤ p ∧ p ≤ max b2 e) := by
  rcases lt_trichotomy s e with hlt | heq | hgt
  · rw [if_pos hlt] at hb1
    rw [if_pos hlt] at hb2
    have hsp : s ≤ p := by rw [min_eq_left hlt.le] at h1; exact h1
    have hpe : p ≤ e := by rw [max_eq_right hlt.le] at h2; exact h2
    by_cases hc1 : p ≤ b1
    · exact Or.inl ⟨le_trans (min_le_left _ _) hsp, le_trans hc1 (le_max_right _ _)⟩
    · by_cases hc2 : p ≤ b2
      · refine Or.inr (Or.inl ⟨le_trans (min_le_left _ _) ?_, le_trans hc2 (le_max_right _ _)⟩)
        push_neg at hc1
        exact hc1.le
      · refine Or.inr (Or.inr ⟨le_trans (min_le_left _ _) ?_, le_trans hpe (le_max_right _ _)⟩)
        push_neg at hc2
        exact hc2.le
  · subst heq
    have hb1s : b1 = s := by rw [hb1]; simp
    have hb2s : b2 = s := by rw [hb2]; simp
    have hps : p = s := le_antisymm (by simpa using h2) (by simpa using h1)
    subst hps
    exact Or.inl ⟨by simp [hb1s], by simp [hb1s]⟩
  · rw [if_neg (not_lt.mpr hgt.le)] at hb1
    rw [if_neg (not_lt.mpr hgt.le)] at hb2
    have hep : e ≤ p := by rw [min_eq_right hgt.le] at h1; exact h1
    have hps : p ≤ s := by rw [max_eq_left hgt.le] at h2; exact h2
    have hd : (e - s) / 3 ≤ 0 := by linarith
    have hb2s : s ≤ b2 := by rw [hb2]; linarith
    exact Or.inr (Or.inr ⟨le_trans (min_le_right _ _) hep,
      le_trans (le_trans hps hb2s) (le_max_left _ _)⟩)

/-- One-axis containment in the forward case `s ≤ e`: each of the three
column (resp. row) intervals lies inside `[s, e]`. -/
theorem axis_contain (s e p b1 b2 : ℚ)
    (hb1 : b1 = if e > s then s + (e - s) / 3 else s - (e - s) / 3)
    (hb2 : b2 = if e > s then s + 2 * ((e - s) / 3) else s - 2 * ((e - s) / 3))
    (hse : s ≤ e)
    (h : (min s b1 ≤ p ∧ p ≤ max s b1) ∨ (min b1 b2 ≤ p ∧ p ≤ max b1 b2) ∨
      (min b2 e ≤ p ∧ p ≤ max b2 e)) :
    s ≤ p ∧ p ≤ e := by
  rcases eq_or_lt_of_le hse with heq | hlt
  · subst heq
    have hb1s : b1 = s := by rw [hb1]; simp
    have hb2s : b2 = s := by rw [hb2]; simp
    rw [hb1s, hb2s] at h
    simp only [min_self, max_self] at h
    rcases h with ⟨ha, hb⟩ | ⟨ha, hb⟩ | ⟨ha, hb⟩ <;> exact ⟨ha, hb⟩
  · rw [if_pos hlt] at hb1
    rw [if_pos hlt] at hb2
    have hd : 0 ≤ (e - s) / 3 := by linarith
    have h1 : s ≤ b1 := by rw [hb1]; linarith
    have h2 : b1 ≤ b2 := by rw [hb1, hb2]; linarith
    have h3 : b2 ≤ e := by rw [hb2]; linarith
    rcases h with ⟨ha, hb⟩ | ⟨ha, hb⟩ | ⟨ha, hb⟩
    · refine ⟨by rwa [min_eq_left h1] at ha, ?_⟩
      rw [max_eq_right h1] at hb
      linarith
    · refine ⟨?_, ?_⟩
      · rw [min_eq_left h2] at ha
        linarith
      · rw [max_eq_right h2] at hb
        linarith
    · refine ⟨?_, by rwa [max_eq_right h3] at hb⟩
      rw [min_eq_left h3] at ha
      linarith

theorem get_region_mem (p : Vec3) (b : NineRegions)
    (h : is_within_region p b.r00 = true ∨ is_within_region p b.r01 = true ∨
      is_within_region p b.r02 = true ∨ is_within_region p b.r10 = true ∨
      is_within_region p b.r11 = true ∨ is_within_region p b.r12 = true ∨
      is_within_region p b.r20 = true ∨ is_within_region p b.r21 = true ∨
      is_within_region p b.r22 = true) :
    ∃ n, get_region p b = some n ∧ 1 ≤ n ∧ n ≤ 9 := by
  unfold get_region
  split_ifs with h1 h2 h3 h4 h5 h6 h7 h8 h9
  · exact ⟨1, rfl, by norm_num⟩
  · exact ⟨2, rfl, by norm_num⟩
  · exact ⟨3, rfl, by norm_num⟩
  · exact ⟨4, rfl, by norm_num⟩
  · exact ⟨5, rfl, by norm_num⟩
  · exact ⟨6, rfl, by norm_num⟩
  · exact ⟨7, rfl, by norm_num⟩
  · exact ⟨8, rfl, by norm_num⟩
  · exact ⟨9, rfl, by norm_num⟩
  · rcases h with h | h | h | h | h | h | h | h | h <;> contradiction

/-- Claim C1 (amended).  Coverage holds regardless of direction: for every
`start_position`, `end_position` and every point of the rectangle they span
in the x-z plane, `get_region` on the bounds from
`calculate_nine_region_bounds` returns a region number 1-9.  The exact
subdivision part holds in the forward case: when each end coordinate is at
least the corresponding start coordinate, every one of the nine regions lies
inside the spanned rectangle (so together with coverage they subdivide it
exactly); the counterexample shows this containment fails when an end
coordinate is smaller than its start coordinate. -/
theorem claim_C1_amended (sp ep : Vec3) :
    (∀ p : Vec3, min sp.x ep.x ≤ p.x → p.x ≤ max sp.x ep.x →
      min sp.z ep.z ≤ p.z → p.z ≤ max sp.z ep.z →
      ∃ n, get_region p (calculate_nine_region_bounds sp ep) = some n ∧ 1 ≤ n ∧ n ≤ 9) ∧
    (sp.x ≤ ep.x → sp.z ≤ ep.z → ∀ p : Vec3,
      ∀ r ∈ nine_region_list (calculate_nine_region_bounds sp ep),
        is_within_region p r = true →
        sp.x ≤ p.x ∧ p.x ≤ ep.x ∧ sp.z ≤ p.z ∧ p.z ≤ ep.z) := by
  constructor
  · intro p hx1 hx2 hz1 hz2
    have hx := axis_cover sp.x ep.x p.x _ _ rfl rfl hx1 hx2
    have hz := axis_cover sp.z ep.z p.z _ _ rfl rfl hz1 hz2
    apply get_region_mem
    rcases hx with hxc | hxc | hxc <;> rcases hz with hzc | hzc | hzc
    · exact Or.inl ((within_iff p _).mpr ⟨hxc, hzc⟩)
    · exact Or.inr (Or.inr (Or.inr (Or.inl ((within_iff p _).mpr ⟨hxc, hzc⟩))))
    · exact Or.inr (Or.inr (Or.inr (Or.inr (Or.inr (Or.inr (Or.inl
        ((within_iff p _).mpr ⟨hxc, hzc⟩)))))))
    · exact Or.inr (Or.inl ((within_iff p _).mpr ⟨hxc, hzc⟩))
    · exact Or.inr (Or.inr (Or.inr (Or.inr (Or.inl ((within_iff p _).mpr ⟨hxc, hzc⟩)))))
    · exact Or.inr (Or.inr (Or.inr (Or.inr (Or.inr (Or.inr (Or.inr (Or.inl
        ((within_iff p _).mpr ⟨hxc, hzc⟩))))))))
    · exact Or.inr (Or.inr (Or.inl ((within_iff p _).mpr ⟨hxc, hzc⟩)))
    · exact Or.inr (Or.inr (Or.inr (Or.inr (Or.inr (Or.inl
        ((within_iff p _).mpr ⟨hxc, hzc⟩))))))
    · exact Or.inr (Or.inr (Or.inr (Or.inr (Or.inr (Or.inr (Or.inr (Or.inr
        ((within_iff p _).mpr ⟨hxc, hzc⟩))))))))
  · intro hsex hsez p r hr hw
    simp only [nine_region_list, List.mem_cons, List.not_mem_nil, or_false] at hr
    rcases hr with rfl | rfl | rfl | rfl | rfl | rfl | rfl | rfl | rfl <;>
      have hw' := (within_iff p _).mp hw
    · have hx := axis_contain sp.x ep.x p.x _ _ rfl rfl hsex (Or.inl hw'.1)
      have hz := axis_contain sp.z ep.z p.z _ _ rfl rfl hsez (Or.inl hw'.2)
      exact ⟨hx.1, hx.2, hz.1, hz.2⟩
    · have hx := axis_contain sp.x ep.x p.x _ _ rfl rfl hsex (Or.inr (Or.inl hw'.1))
      have hz := axis_contain sp.z ep.z p.z _ _ rfl rfl hsez (Or.inl hw'.2)
      exact ⟨hx.1, hx.2, hz.1, hz.2⟩
    · have hx := axis_contain sp.x ep.x p.x _ _ rfl rfl hsex (Or.inr (Or.inr hw'.1))
      have hz := axis_contain sp.z ep.z p.z _ _ rfl rfl hsez (Or.inl hw'.2)
      exact ⟨hx.1, hx.2, hz.1, hz.2⟩
    · have hx := axis_contain sp.x ep.x p.x _ _ rfl rfl hsex (Or.inl hw'.1)
      have hz := axis_contain sp.z ep.z p.z _ _ rfl rfl hsez (Or.inr (Or.inl hw'.2))
      exact ⟨hx.1, hx.2, hz.1, hz.2⟩
    · have hx := axis_contain sp.x ep.x p.x _ _ rfl rfl hsex (Or.inr (Or.inl hw'.1))
      have hz := axis_contain sp.z ep.z p.z _ _ rfl rfl hsez (Or.inr (Or.inl hw'.2))
      exact ⟨hx.1, hx.2, hz.1, hz.2⟩
    · have hx := axis_contain sp.x ep.x p.x _ _ rfl rfl hsex (Or.inr (Or.inr hw'.1))
      have hz := axis_contain sp.z ep.z p.z _ _ rfl rfl hsez (Or.inr (Or.inl hw'.2))
      exact ⟨hx.1, hx.2, hz.1, hz.2⟩
    · have hx := axis_contain sp.x ep.x p.x _ _ rfl rfl hsex (Or.inl hw'.1)
      have hz := axis_contain sp.z ep.z p.z _ _ rfl rfl hsez (Or.inr (Or.inr hw'.2))
      exact ⟨hx.1, hx.2, hz.1, hz.2⟩
    · have hx := axis_contain sp.x ep.x p.x _ _ rfl rfl hsex (Or.inr (Or.inl hw'.1))
      have hz := axis_contain sp.z ep.z p.z _ _ rfl rfl hsez (Or.inr (Or.inr hw'.2))
      exact ⟨hx.1, hx.2, hz.1, hz.2⟩
    · have hx := axis_contain sp.x ep.x p.x _ _ rfl rfl hsex (Or.inr (Or.inr hw'.1))
      have hz := axis_contain sp.z ep.z p.z _ _ rfl rfl hsez (Or.inr (Or.inr hw'.2))
      exact ⟨hx.1, hx.2, hz.1, hz.2⟩

/-- Claim C1 counterexample: when an end coordinate is smaller than the
corresponding start coordinate the nine regions do not exactly subdivide the
spanned rectangle.  For `start_position = (0,0,0)` and
`end_position = (-3,0,-3)` the first region `bounds[0][0]` contains the
point `(1,0,1)`, whose x coordinate lies outside the spanned rectangle
(`1 > max 0 (-3) = 0`). -/
theorem claim_C1_counterexample :
    is_within_region ⟨1, 0, 1⟩
        ((calculate_nine_region_bounds ⟨0, 0, 0⟩ ⟨-3, 0, -3⟩).r00) = true ∧
      ¬((1 : ℚ) ≤ max (0 : ℚ) (-3)) := by
  constructor
  · norm_num [is_within_region, calculate_nine_region_bounds]
  · norm_num [max_def]

/-- Witness for the amended claim C1 at concrete inputs: start `(0,0,0)`,
end `(3,0,3)`, point `(2,0,2)`. -/
theorem claim_C1_amended_witness :
    (∃ n, get_region ⟨2, 0, 2⟩ (calculate_nine_region_bounds ⟨0, 0, 0⟩ ⟨3, 0, 3⟩) = some n ∧
        1 ≤ n ∧ n ≤ 9) ∧
      ((0 : ℚ) ≤ 2 ∧ (2 : ℚ) ≤ 3 ∧ (0 : ℚ) ≤ 2 ∧ (2 : ℚ) ≤ 3) := by
  constructor
  · exact (claim_C1_amended ⟨0, 0, 0⟩ ⟨3, 0, 3⟩).1 ⟨2, 0, 2⟩ (by norm_num [min_def])
      (by norm_num [max_def]) (by norm_num [min_def]) (by norm_num [max_def])
  · exact (claim_C1_amended ⟨0, 0, 0⟩ ⟨3, 0, 3⟩).2 (by norm_num) (by norm_num) ⟨2, 0, 2⟩
      ((calculate_nine_region_bounds ⟨0, 0, 0⟩ ⟨3, 0, 3⟩).r11)
      (by simp [nine_region_list])
      (by norm_num [is_within_region, calculate_nine_region_bounds, min_def, max_def])

/-- A concrete room-bounds dictionary (the unit square in x-z), used for
witnesses and failing inputs of the confinement state machine. -/
def rb0 : RegionBounds := ⟨0, 0, 0, 1, 0, 1⟩

theorem gkp_choose_outside (st : GKState) (hc rot : Bool) (conf cur : String)
    (rb : RegionBounds) (pos : Vec3) (rand : ℕ)
    (hpos : pos ≠ ⟨0, 0, 0⟩) (hout : is_within_region pos rb = false)
    (htaken : st.reverse_action_taken = false) :
    gkp_choose st hc rot conf cur (some rb) pos rand =
      (reverse_action st.next_action, st.rotation_counter, true) := by
  by_cases hbr : conf ≠ "" ∧ cur ≠ conf
  · simp [gkp_choose, hbr, htaken]
  · simp [gkp_choose, hbr, htaken, hpos, hout]

theorem gkp_choose_outside_taken (st : GKState) (hc rot : Bool) (conf cur : String)
    (rb : RegionBounds) (pos : Vec3) (rand : ℕ)
    (hpos : pos ≠ ⟨0, 0, 0⟩) (hout : is_within_region pos rb = false)
    (htaken : st.reverse_action_taken = true) :
    gkp_choose st hc rot conf cur (some rb) pos rand =
      (some st.next_action, st.rotation_counter, true) := by
  by_cases hbr : conf ≠ "" ∧ cur ≠ conf
  · simp [gkp_choose, hbr, htaken]
  · simp [gkp_choose, hbr, htaken, hpos, hout]

theorem reverse_action_mem (a : ℤ) (ha : a ∈ actions) :
    ∃ r, reverse_action a = some r ∧ r ∈ actions := by
  simp only [actions, List.mem_cons, List.not_mem_nil, or_false] at ha
  rcases ha with rfl | rfl | rfl | rfl | rfl | rfl <;> exact ⟨_, rfl, by simp [actions]⟩

theorem actions_bounds (a : ℤ) (ha : a ∈ actions) : 0 ≤ a ∧ a < 323 := by
  simp only [actions, List.mem_cons, List.not_mem_nil, or_false] at ha
  rcases ha with rfl | rfl | rfl | rfl | rfl | rfl <;> norm_num

theorem generate_eq_of_choose (st : GKState) (hc rot : Bool) (conf cur : String)
    (rb : Option RegionBounds) (pos : Vec3) (rand : ℕ) (a : ℤ) (rc : ℕ) (tk : Bool)
    (hch : gkp_choose st hc rot conf cur rb pos rand = (some a, rc, tk))
    (h0 : 0 ≤ a) (h1 : a < 323) :
    generate_key_press_random st hc rot conf cur rb pos rand =
      some ({ previous_action := st.next_action, next_action := a,
              rotation_counter := if a = 275 ∨ a = 276 then rc + 1 else rc,
              reverse_action_taken := tk }, empty_keys_one a.toNat) := by
  unfold generate_key_press_random
  rw [hch]
  dsimp only
  rw [if_neg (not_lt.mpr h0)]
  rw [dif_pos ⟨h0, h1⟩]

theorem empty_keys_one_length (i : ℕ) : (empty_keys_one i).length = 323 := by
  simp [empty_keys_one]

theorem empty_keys_one_get (i j : ℕ) (hj : j < 323) :
    (empty_keys_one i)[j]? = some (if j = i then 1 else 0) := by
  simp [empty_keys_one, List.getElem?_range, hj]

/-- Claim C2: while the agent is outside the rectangular `room_bounds`
region (position nonzero, bounds non-empty) and no reverse action was taken
on the previous call, `generate_key_press_random` returns the one-hot
keypress at `reverse_action(previous_action)` and marks the reversal; any
subsequent call still outside the region repeats the same reversed
action.  `previous_action` (the action chosen by the previous call, the
global `next_action` at entry) is assumed to be one of the six action
codes; the `previous_action = 0` case is the subject of claim C10. -/
theorem claim_C2_room_exit_reversal (st : GKState) (hc rot : Bool) (conf cur : String)
    (rb : RegionBounds) (pos : Vec3) (rand : ℕ)
    (hprev : st.next_action ∈ actions)
    (htaken : st.reverse_action_taken = false)
    (hpos : pos ≠ ⟨0, 0, 0⟩) (hout : is_within_region pos rb = false) :
    ∃ r st₁, reverse_action st.next_action = some r ∧
      generate_key_press_random st hc rot conf cur (some rb) pos rand =
        some (st₁, empty_keys_one r.toNat) ∧
      st₁.next_action = r ∧ st₁.reverse_action_taken = true ∧
      ∀ (hc₂ rot₂ : Bool) (rand₂ : ℕ) (pos₂ : Vec3), pos₂ ≠ ⟨0, 0, 0⟩ →
        is_within_region pos₂ rb = false →
        ∃ st₂, generate_key_press_random st₁ hc₂ rot₂ conf cur (some rb) pos₂ rand₂ =
          some (st₂, empty_keys_one r.toNat) ∧ st₂.next_action = r := by
  obtain ⟨r, hrev, hrmem⟩ := reverse_action_mem _ hprev
  obtain ⟨hr0, hr1⟩ := actions_bounds r hrmem
  have hch := gkp_choose_outside st hc rot conf cur rb pos rand hpos hout htaken
  rw [hrev] at hch
  refine ⟨r,
    ⟨st.next_action, r,
      if r = 275 ∨ r = 276 then st.rotation_counter + 1 else st.rotation_counter, true⟩,
    hrev,
    generate_eq_of_choose st hc rot conf cur (some rb) pos rand r st.rotation_counter true
      hch hr0 hr1, rfl, rfl, ?_⟩
  intro hc₂ rot₂ rand₂ pos₂ hpos₂ hout₂
  have hch₂ := gkp_choose_outside_taken
    ⟨st.next_action, r,
      if r = 275 ∨ r = 276 then st.rotation_counter + 1 else st.rotation_counter, true⟩
    hc₂ rot₂ conf cur rb pos₂ rand₂ hpos₂ hout₂ rfl
  exact ⟨_, generate_eq_of_choose _ hc₂ rot₂ conf cur (some rb) pos₂ rand₂ r _ true
    hch₂ hr0 hr1, rfl⟩

/-- Witness for claim C2 at a concrete call: previous action 119 (forward),
position (5,0,5) outside the unit-square bounds `rb0`; the reversed action
is 115 (backward) and is repeated on the next call. -/
theorem claim_C2_witness :
    ∃ r st₁, reverse_action 119 = some r ∧
      generate_key_press_random ⟨0, 119, 0, false⟩ false false "" "" (some rb0) ⟨5, 0, 5⟩ 0 =
        some (st₁, empty_keys_one r.toNat) ∧
      st₁.next_action = r ∧ st₁.reverse_action_taken = true ∧
      ∀ (hc₂ rot₂ : Bool) (rand₂ : ℕ) (pos₂ : Vec3), pos₂ ≠ ⟨0, 0, 0⟩ →
        is_within_region pos₂ rb0 = false →
        ∃ st₂, generate_key_press_random st₁ hc₂ rot₂ "" "" (some rb0) pos₂ rand₂ =
          some (st₂, empty_keys_one r.toNat) ∧ st₂.next_action = r :=
  claim_C2_room_exit_reversal ⟨0, 119, 0, false⟩ false false "" "" rb0 ⟨5, 0, 5⟩ 0
    (by simp [actions]) rfl (by simp [Vec3.mk.injEq])
    (by norm_num [is_within_region, rb0, min_def, max_def])

/-- Claim C3: `reverse_action` maps each of the six action codes
{119 forward, 115 backward, 97 left, 100 right, 276 CCW, 275 CW} to its
opposite motion and is an involution on this set. -/
theorem claim_C3_reverse_action_involution :
    reverse_action 119 = some 115 ∧ reverse_action 115 = some 119 ∧
    reverse_action 97 = some 100 ∧ reverse_action 100 = some 97 ∧
    reverse_action 276 = some 275 ∧ reverse_action 275 = some 276 ∧
    (reverse_action 119).bind reverse_action = some 119 ∧
    (reverse_action 115).bind reverse_action = some 115 ∧
    (reverse_action 97).bind reverse_action = some 97 ∧
    (reverse_action 100).bind reverse_action = some 100 ∧
    (reverse_action 276).bind reverse_action = some 276 ∧
    (reverse_action 275).bind reverse_action = some 275 :=
  ⟨rfl, rfl, rfl, rfl, rfl, rfl, rfl, rfl, rfl, rfl, rfl, rfl⟩

/-- Claim C9: every successful return of `generate_key_press_random` is the
one-hot 323-tuple: a 1 at the index of the chosen action code (recorded in
the global `next_action`) and 0 everywhere else.  (For a hypothetical
negative chosen code the 1 would sit at the Python wrap-around index, hence
the nonnegativity guard in the last conjunct; every reachable action code
is one of {0, 119, 115, 97, 100, 276, 275}, all nonnegative.) -/
theorem claim_C9_one_hot (st : GKState) (hc rot : Bool) (conf cur : String)
    (rb : Option RegionBounds) (pos : Vec3) (rand : ℕ) (st' : GKState) (kp : List ℤ)
    (h : generate_key_press_random st hc rot conf cur rb pos rand = some (st', kp)) :
    kp.length = 323 ∧ ∃ i, i < 323 ∧ kp = empty_keys_one i ∧
      (∀ j, j < 323 → kp[j]? = some (if j = i then 1 else 0)) ∧
      (0 ≤ st'.next_action → (i : ℤ) = st'.next_action) := by
  unfold generate_key_press_random at h
  rcases hch : gkp_choose st hc rot conf cur rb pos rand with ⟨co, rc, tk⟩
  rw [hch] at h
  rcases co with _ | a
  · simp at h
  · dsimp only at h
    by_cases hneg : a < 0
    · rw [if_pos hneg] at h
      by_cases hcond : 0 ≤ a + 323 ∧ a + 323 < 323
      · rw [dif_pos hcond, Option.some.injEq, Prod.mk.injEq] at h
        obtain ⟨hst, hkp⟩ := h
        subst hst
        subst hkp
        refine ⟨empty_keys_one_length _, (a + 323).toNat, by omega, rfl,
          fun j hj => empty_keys_one_get _ j hj, fun ha => ?_⟩
        exact absurd (show (0 : ℤ) ≤ a from ha) (not_le.mpr hneg)
      · rw [dif_neg hcond] at h
        exact absurd h (by simp)
    · rw [if_neg hneg] at h
      by_cases hcond : 0 ≤ a ∧ a < 323
      · rw [dif_pos hcond, Option.some.injEq, Prod.mk.injEq] at h
        obtain ⟨hst, hkp⟩ := h
        subst hst
        subst hkp
        refine ⟨empty_keys_one_length _, a.toNat, by omega, rfl,
          fun j hj => empty_keys_one_get _ j hj, fun _ => ?_⟩
        show (a.toNat : ℤ) = a
        omega
      · rw [dif_neg hcond] at h
        exact absurd h (by simp)

/-- Witness for claim C9: the very first call (all globals zero, no
collision, no confinement) chooses the forward action 119 and returns the
one-hot tuple at index 119. -/
theorem claim_C9_witness :
    (empty_keys_one 119).length = 323 ∧ ∃ i, i < 323 ∧
      empty_keys_one 119 = empty_keys_one i ∧
      (∀ j, j < 323 → (empty_keys_one 119)[j]? = some (if j = i then 1 else 0)) ∧
      (0 ≤ (GKState.mk 0 119 0 false).next_action →
        (i : ℤ) = (GKState.mk 0 119 0 false).next_action) :=
  claim_C9_one_hot ⟨0, 0, 0, false⟩ false false "" "" none ⟨0, 0, 0⟩ 0
    ⟨0, 119, 0, false⟩ (empty_keys_one 119) rfl

/-- Claim C7 (code bug): inside the exploration loop `keys` is the value of
`generate_key_press_random` (the `pygame.key.get_pressed()` read at line
570 is commented out), so the `keys[K_q]` test at line 575 inspects the
generated one-hot tuple, not the keyboard.  At a representative loop state
(previous action 119 forward, no collision, agent in its room) the
generated tuple has a 0 at index `K_q = 113`, so the `break` does not
fire and pressing Q does not terminate the loop. -/
theorem claim_C7_q_entry_zero :
    generate_key_press_random ⟨0, 119, 0, false⟩ false false "room0" "room0" none ⟨0, 0, 0⟩ 0 =
      some (⟨119, 119, 0, false⟩, empty_keys_one 119) ∧
    (empty_keys_one 119)[113]? = some 0 := by
  constructor
  · rfl
  · rw [empty_keys_one_get 119 113 (by norm_num)]
    norm_num

/-- Claim C10: `reverse_action` returns `None` on every input outside the
six action codes (in particular on the initial `previous_action = 0`);
taking a confinement branch with `previous_action = 0` makes the final
`empty_keys[next_action] = 1` step raise (`none` here); and under the
precondition that `previous_action` is one of the six action codes the
confinement branch indexes safely. -/
theorem claim_C10_reverse_none_unsafe_indexing :
    (∀ a : ℤ, a ∉ actions → reverse_action a = none) ∧
    generate_key_press_random ⟨0, 0, 0, false⟩ false false "" "" (some rb0) ⟨5, 0, 5⟩ 0 =
      none ∧
    (∀ (st : GKState) (hc rot : Bool) (conf cur : String) (rb : RegionBounds)
      (pos : Vec3) (rand : ℕ), st.next_action ∈ actions →
      st.reverse_action_taken = false → pos ≠ ⟨0, 0, 0⟩ →
      is_within_region pos rb = false →
      (generate_key_press_random st hc rot conf cur (some rb) pos rand).isSome = true) := by
  refine ⟨?_, ?_, ?_⟩
  · intro a ha
    simp only [actions, List.mem_cons, List.not_mem_nil, or_false, not_or] at ha
    obtain ⟨h1, h2, h3, h4, h5, h6⟩ := ha
    unfold reverse_action
    rw [if_neg h1, if_neg h2, if_neg h3, if_neg h4, if_neg h5, if_neg h6]
  · have hout : is_within_region ⟨5, 0, 5⟩ rb0 = false := by
      norm_num [is_within_region, rb0, min_def, max_def]
    have hch := gkp_choose_outside ⟨0, 0, 0, false⟩ false false "" "" rb0 ⟨5, 0, 5⟩ 0
      (by simp [Vec3.mk.injEq]) hout rfl
    unfold generate_key_press_random
    rw [hch]
    rfl
  · intro st hc rot conf cur rb pos rand hprev htaken hpos hout
    obtain ⟨r, hrev, hrmem⟩ := reverse_action_mem _ hprev
    obtain ⟨hr0, hr1⟩ := actions_bounds r hrmem
    have hch := gkp_choose_outside st hc rot conf cur rb pos rand hpos hout htaken
    rw [hrev] at hch
    rw [generate_eq_of_choose st hc rot conf cur (some rb) pos rand r st.rotation_counter
      true hch hr0 hr1]
    rfl

/-- Witness for claim C10: `reverse_action` on the non-action code 42
returns `None`, and the same outside-the-region call succeeds when the
previous action is the valid code 119. -/
theorem claim_C10_witness :
    reverse_action 42 = none ∧
      (generate_key_press_random ⟨0, 119, 0, false⟩ false false "" "" (some rb0) ⟨5, 0, 5⟩
        0).isSome = true :=
  ⟨claim_C10_reverse_none_unsafe_indexing.1 42 (by simp [actions]),
    claim_C10_reverse_none_unsafe_indexing.2.2 ⟨0, 119, 0, false⟩ false false "" "" rb0
      ⟨5, 0, 5⟩ 0 (by simp [actions]) rfl (by simp [Vec3.mk.injEq])
      (by norm_num [is_within_region, rb0, min_def, max_def])⟩

theorem foldl_max_mem (xs : List ℚ) (a : ℚ) :
    xs.foldl max a = a ∨ xs.foldl max a ∈ xs := by
  induction xs generalizing a with
  | nil => exact Or.inl rfl
  | cons x xs ih =>
    simp only [List.foldl_cons]
    rcases ih (max a x) with h | h
    · rcases max_choice a x with hm | hm
      · rw [h, hm]
        exact Or.inl rfl
      · rw [h, hm]
        exact Or.inr (List.mem_cons_self x xs)
    · exact Or.inr (List.mem_cons_of_mem x h)

theorem img_max_mem (img : List ℚ) (h : img ≠ []) : img_max img ∈ img := by
  cases img with
  | nil => exact absurd rfl h
  | cons x xs =>
    have hrw : img_max (x :: xs) = xs.foldl max x := rfl
    rw [hrw]
    rcases foldl_max_mem xs x with h1 | h1
    · rw [h1]
      exact List.mem_cons_self x xs
    · exact List.mem_cons_of_mem x h1

theorem le_foldl_max (xs : List ℚ) (a : ℚ) : a ≤ xs.foldl max a := by
  induction xs generalizing a with
  | nil => exact le_refl a
  | cons x xs ih =>
    simp only [List.foldl_cons]
    exact le_trans (le_max_left a x) (ih (max a x))

theorem mem_le_foldl_max (xs : List ℚ) (a x : ℚ) (hx : x ∈ xs) : x ≤ xs.foldl max a := by
  induction xs generalizing a with
  | nil => cases hx
  | cons y ys ih =>
    simp only [List.foldl_cons]
    rcases List.mem_cons.mp hx with rfl | h
    · exact le_trans (le_max_right a x) (le_foldl_max ys (max a x))
    · exact ih (max a y) h

theorem mem_le_img_max (img : List ℚ) (x : ℚ) (hx : x ∈ img) : x ≤ img_max img := by
  cases img with
  | nil => cases hx
  | cons y ys =>
    have hrw : img_max (y :: ys) = ys.foldl max y := rfl
    rw [hrw]
    rcases List.mem_cons.mp hx with rfl | h
    · exact le_foldl_max ys x
    · exact mem_le_foldl_max ys y x h

theorem uint8_cast_le (q : ℚ) : uint8_cast q ≤ 255 := by
  unfold uint8_cast
  have h1 : 0 ≤ Int.emod (Int.tdiv q.num q.den) 256 :=
    Int.emod_nonneg _ (by norm_num)
  have h2 : Int.emod (Int.tdiv q.num q.den) 256 < 256 :=
    Int.emod_lt_of_pos _ (by norm_num)
  omega

theorem uint8_cast_255 : uint8_cast 255 = 255 := by decide

theorem foldr_max_le_255 (l : List ℕ) (hb : ∀ x ∈ l, x ≤ 255) : l.foldr max 0 ≤ 255 := by
  induction l with
  | nil => norm_num
  | cons x xs ih =>
    simp only [List.foldr_cons]
    exact max_le (hb x (List.mem_cons_self x xs))
      (ih fun y hy => hb y (List.mem_cons_of_mem x hy))

theorem le_foldr_max_of_mem (l : List ℕ) (x : ℕ) (hx : x ∈ l) : x ≤ l.foldr max 0 := by
  induction l with
  | nil => cases hx
  | cons y ys ih =>
    simp only [List.foldr_cons]
    rcases List.mem_cons.mp hx with rfl | h
    · exact le_max_left x (ys.foldr max 0)
    · exact le_trans (ih h) (le_max_right y (ys.foldr max 0))

/-- Claim C4: for a depth image (nonnegative pixels) with at least one
nonzero pixel, the depth branch of `display_response` scales every pixel by
`255 / max` and truncates to uint8, so every displayed pixel is at most
255, the value 255 is attained (at the maximal pixel), and the maximum of
the displayed image is exactly 255.  Arithmetic is exact rational
arithmetic in place of IEEE floats. -/
theorem claim_C4_depth_normalization (img : List ℚ)
    (h0 : ∀ p ∈ img, 0 ≤ p) (hnz : ∃ p ∈ img, p ≠ 0) :
    (∀ x ∈ depth_viz img, x ≤ 255) ∧ 255 ∈ depth_viz img ∧
      (depth_viz img).foldr max 0 = 255 := by
  obtain ⟨p0, hp0mem, hp0⟩ := hnz
  have hne : img ≠ [] := by
    intro he
    rw [he] at hp0mem
    cases hp0mem
  have hp0pos : 0 < p0 := lt_of_le_of_ne (h0 p0 hp0mem) (Ne.symm hp0)
  have hM : 0 < img_max img := lt_of_lt_of_le hp0pos (mem_le_img_max img p0 hp0mem)
  have hle : ∀ x ∈ depth_viz img, x ≤ 255 := by
    intro x hx
    unfold depth_viz at hx
    rw [List.mem_map] at hx
    obtain ⟨q, _, rfl⟩ := hx
    exact uint8_cast_le q
  have hMval : img_max img * (255 / img_max img) = 255 := by
    rw [mul_comm, div_mul_cancel₀ _ hM.ne']
  have h255 : (255 : ℕ) ∈ depth_viz img := by
    unfold depth_viz
    refine List.mem_map.mpr ⟨img_max img * (255 / img_max img),
      List.mem_map_of_mem _ (img_max_mem img hne), ?_⟩
    rw [hMval]
    exact uint8_cast_255
  exact ⟨hle, h255,
    le_antisymm (foldr_max_le_255 _ hle) (le_foldr_max_of_mem _ 255 h255)⟩

/-- Witness for claim C4 on the concrete depth image `[1, 2]`. -/
theorem claim_C4_witness :
    (∀ x ∈ depth_viz [1, 2], x ≤ 255) ∧ 255 ∈ depth_viz [1, 2] ∧
      (depth_viz [1, 2]).foldr max 0 = 255 :=
  claim_C4_depth_normalization [1, 2]
    (by
      intro p hp
      simp only [List.mem_cons, List.not_mem_nil, or_false] at hp
      rcases hp with rfl | rfl <;> norm_num)
    ⟨2, by simp, by norm_num⟩

set_option maxRecDepth 4000 in
/-- Claim C5: `blit_img_to_surf` permutes a 4-channel image from BGRA to
RGBA order — output channel i takes input channel `[2,1,0,3][i]` — and
expands a 2-dimensional grayscale image to 4 channels by replicating the
gray value into R, G and B with alpha 255. -/
theorem claim_C5_blit_channels (g : Mat2) (f : Mat4) (i j : ℕ) :
    (blit_convert (.bgra f) i j 0 = f i j 2 ∧ blit_convert (.bgra f) i j 1 = f i j 1 ∧
      blit_convert (.bgra f) i j 2 = f i j 0 ∧ blit_convert (.bgra f) i j 3 = f i j 3) ∧
    (blit_convert (.gray g) i j 0 = g i j ∧ blit_convert (.gray g) i j 1 = g i j ∧
      blit_convert (.gray g) i j 2 = g i j ∧ blit_convert (.gray g) i j 3 = 255) :=
  ⟨⟨rfl, rfl, rfl, rfl⟩, ⟨rfl, rfl, rfl, rfl⟩⟩

/-- Claim C6 (code bug): with an existing `positions.csv` that has no row
for the current (scene, room), pressing C appends a row holding the current
position and angle in the `start_position_*` / `start_angle` columns with
all `end_*` cells empty — the claim (and the sibling branches of the same
handler, which do write `end_*`) says the position is recorded as the end
position and end angle.  The first conjunct evaluates the handler at the
failing input; the second shows the in-place update branch does write the
`end_*` cells, leaving other columns unchanged. -/
theorem claim_C6_append_start_columns :
    handle_key_c [c6_row0] "scene0" "roomB" ⟨1, 2, 3⟩ 4 =
      [c6_row0,
        { scene_id := "scene0", room_id := "roomB",
          start_position_0 := some 1, start_position_1 := some 2,
          start_position_2 := some 3, start_angle := some 4,
          end_position_0 := none, end_position_1 := none,
          end_position_2 := none, end_angle := none }] ∧
    handle_key_c [c6_row0] "scene0" "roomA" ⟨1, 2, 3⟩ 4 =
      [{ c6_row0 with
          end_position_0 := some 1, end_position_1 := some 2,
          end_position_2 := some 3, end_angle := some 4 }] :=
  ⟨rfl, rfl⟩

/-- Claim C8: for every combination of outcomes (simulator start raises,
episode info truthy, loop raises, video writer created), the tail of `main`
attempts the body exactly once (no retry), logs a traceback exactly on the
error paths, and always runs `sim.kill()` and — when one was created — the
video-writer close, on error and normal paths alike. -/
theorem claim_C8_cleanup : ∀ sr ep lr vc : Bool,
    MainEvent.simKill ∈ main_session sr ep lr vc ∧
    (vc = true → MainEvent.videoClose ∈ main_session sr ep lr vc) ∧
    (vc = false → MainEvent.videoClose ∉ main_session sr ep lr vc) ∧
    ((sr = true ∨ (ep = true ∧ lr = true)) →
      MainEvent.logTraceback ∈ main_session sr ep lr vc) ∧
    (sr = false → ep = false ∨ lr = false →
      MainEvent.logTraceback ∉ main_session sr ep lr vc) ∧
    (main_session sr ep lr vc).count MainEvent.simStart = 1 ∧
    (main_session sr ep lr vc).count MainEvent.runLoop ≤ 1 := by
  decide

/-- Witness for claim C8 on the error path with a video writer: the start
raises, the traceback is logged and the video writer is closed. -/
theorem claim_C8_witness :
    MainEvent.videoClose ∈ main_session true false false true ∧
      MainEvent.logTraceback ∈ main_session true false false true :=
  ⟨(claim_C8_cleanup true false false true).2.1 rfl,
    (claim_C8_cleanup true false false true).2.2.2.1 (Or.inl rfl)⟩
